import Mathlib

/-!
Shallow embedding of the nanoreth block-cache maintenance scripts
(`scripts/check_block_completeness.py`, `scripts/download_boundary_blocks.py`,
`scripts/fetch_blocks_rpc.py`) together with theorems settling the claims
about the path-addressing scheme, the RPC batch machinery, the adaptive
pacing loop and the hex decoders.

Python's integer floor division `//` is embedded as `Int.fdiv` (which rounds
toward negative infinity, as Python does); machine-independent `int` values
are embedded as `ℤ` or `ℕ`, and functions that can raise are embedded as
`Option`-valued functions (`none` = an exception escapes).
-/

namespace CheckBlockCompleteness

/-- `expected_dir` from `scripts/check_block_completeness.py` (lines 26-32):
`(millions, thousands)` directory for a block using `(height-1)` bucketing,
with an explicit special case mapping block 0 to `(0, 0)`. -/
def expected_dir (block_number : ℤ) : ℤ × ℤ :=
  if block_number = 0 then (0, 0)
  else
    (Int.fdiv (block_number - 1) 1000000 * 1000000,
     Int.fdiv (block_number - 1) 1000 * 1000)

/-- The `(millions, thousands, fileName)` triple underlying `cache_path`
from `scripts/check_block_completeness.py` (lines 35-37):
`blocks_dir / str(m) / str(t) / f"{block_number}.rmp.lz4"`. -/
def pathTriple (block_number : ℤ) : ℤ × ℤ × String :=
  ((expected_dir block_number).1, (expected_dir block_number).2,
   toString block_number ++ ".rmp.lz4")

end CheckBlockCompleteness

namespace DownloadBoundaryBlocks

/-- The `(millions, thousands)` pair computed inside `s3_key` and
`cache_path` of `scripts/download_boundary_blocks.py` (lines 29-40): plain
`(height-1)` bucketing with no special case for block 0. -/
def s3_buckets (block_number : ℤ) : ℤ × ℤ :=
  (Int.fdiv (block_number - 1) 1000000 * 1000000,
   Int.fdiv (block_number - 1) 1000 * 1000)

/-- The `(millions, thousands, fileName)` triple of `s3_key` /
`cache_path` from `scripts/download_boundary_blocks.py`:
`f"{millions}/{thousands}/{block_number}.rmp.lz4"`. -/
def pathTriple (block_number : ℤ) : ℤ × ℤ × String :=
  ((s3_buckets block_number).1, (s3_buckets block_number).2,
   toString block_number ++ ".rmp.lz4")

end DownloadBoundaryBlocks

namespace FetchBlocksRpc

/-- The `(m, t)` pair computed inside `block_path` of
`scripts/fetch_blocks_rpc.py` (lines 86-89): plain `(height-1)` bucketing
with no special case for block 0. -/
def block_path_buckets (block_num : ℤ) : ℤ × ℤ :=
  (Int.fdiv (block_num - 1) 1000000 * 1000000,
   Int.fdiv (block_num - 1) 1000 * 1000)

/-- The `(m, t, fileName)` triple of `block_path` from
`scripts/fetch_blocks_rpc.py`:
`os.path.join(blocks_dir, str(m), str(t), f"{block_num}.rmp.lz4")`. -/
def pathTriple (block_num : ℤ) : ℤ × ℤ × String :=
  ((block_path_buckets block_num).1, (block_path_buckets block_num).2,
   toString block_num ++ ".rmp.lz4")

end FetchBlocksRpc

/-- C1 (amended). For every height `h ≥ 1` the `(millions, thousands,
fileName)` triples of `expected_dir`/`cache_path`
(check_block_completeness.py), `s3_key`/`cache_path`
(download_boundary_blocks.py) and `block_path` (fetch_blocks_rpc.py)
coincide; at height 0, however, `expected_dir` returns buckets `(0, 0)`
while the other two return `(-1000000, -1000)` (Python floor division of
`-1`), so the three components do NOT all map height 0 to `(0, 0)`. -/
theorem path_scheme_agrees_for_positive_heights (b : ℤ) (hb : 1 ≤ b) :
    CheckBlockCompleteness.pathTriple b = DownloadBoundaryBlocks.pathTriple b ∧
    CheckBlockCompleteness.pathTriple b = FetchBlocksRpc.pathTriple b ∧
    CheckBlockCompleteness.expected_dir 0 = (0, 0) ∧
    DownloadBoundaryBlocks.s3_buckets 0 = (-1000000, -1000) ∧
    FetchBlocksRpc.block_path_buckets 0 = (-1000000, -1000) := by
  have hne : b ≠ 0 := by omega
  refine ⟨?_, ?_, by decide, by decide, by decide⟩ <;>
    simp [CheckBlockCompleteness.pathTriple, DownloadBoundaryBlocks.pathTriple,
      FetchBlocksRpc.pathTriple, CheckBlockCompleteness.expected_dir,
      DownloadBoundaryBlocks.s3_buckets, FetchBlocksRpc.block_path_buckets, hne]

/-- Witness for `path_scheme_agrees_for_positive_heights` at height 1. -/
theorem path_scheme_agrees_witness :
    (1 : ℤ) ≤ 1 ∧
    CheckBlockCompleteness.pathTriple 1 = FetchBlocksRpc.pathTriple 1 :=
  ⟨le_refl 1, (path_scheme_agrees_for_positive_heights 1 (le_refl 1)).2.1⟩

/-- C1 counterexample: at height 0 the three path functions disagree, so
the claim "all three map height 0 to buckets (0, 0)" is false: `block_path`
and `s3_key` map height 0 to `(-1000000, -1000)`. -/
theorem path_scheme_height_zero_disagrees :
    FetchBlocksRpc.block_path_buckets 0 ≠ (0, 0) ∧
    DownloadBoundaryBlocks.s3_buckets 0 ≠ (0, 0) ∧
    CheckBlockCompleteness.expected_dir 0 = (0, 0) := by
  refine ⟨by decide, by decide, by decide⟩

/-- C2. For every `h ≥ 1`, `expected_dir h` equals
`(⌊(h-1)/1000000⌋·1000000, ⌊(h-1)/1000⌋·1000)`; `expected_dir 0 = (0, 0)`;
and height 45000000 maps to thousands bucket 44999000, not 45000000. -/
theorem expected_dir_formula (h : ℤ) (hh : 1 ≤ h) :
    CheckBlockCompleteness.expected_dir h =
      (Int.fdiv (h - 1) 1000000 * 1000000, Int.fdiv (h - 1) 1000 * 1000) ∧
    CheckBlockCompleteness.expected_dir 0 = (0, 0) ∧
    (CheckBlockCompleteness.expected_dir 45000000).2 = 44999000 ∧
    (CheckBlockCompleteness.expected_dir 45000000).2 ≠ 45000000 := by
  have hne : h ≠ 0 := by omega
  refine ⟨?_, by decide, by decide, by decide⟩
  simp [CheckBlockCompleteness.expected_dir, hne]

/-- Witness for `expected_dir_formula` at height 45000000. -/
theorem expected_dir_formula_witness :
    (1 : ℤ) ≤ 45000000 ∧
    (CheckBlockCompleteness.expected_dir 45000000).2 = 44999000 :=
  ⟨by norm_num, (expected_dir_formula 45000000 (by norm_num)).2.2.1⟩

namespace FetchBlocksRpc

/-- `PRECOMPILE_TRANSITIONS` from `scripts/fetch_blocks_rpc.py` (lines
57-62), newest-first.  Each 20-byte address `bytes.fromhex("00...08xy")` is
embedded as the natural number it denotes in big-endian (0x810 .. 0x813). -/
def PRECOMPILE_TRANSITIONS : List (ℕ × ℕ) :=
  [(44868476, 0x813), (42675776, 0x812), (41121887, 0x811), (0, 0x810)]

/-- The `for threshold, addr in PRECOMPILE_TRANSITIONS: if block_num >=
threshold: return addr` loop of `get_highest_precompile` (lines 65-69). -/
def lookupPrecompile : List (ℕ × ℕ) → ℕ → Option ℕ
  | [], _ => none
  | (threshold, addr) :: rest, block_num =>
    if block_num ≥ threshold then some addr else lookupPrecompile rest block_num

/-- `get_highest_precompile` from `scripts/fetch_blocks_rpc.py` (lines
65-69): first matching entry of the newest-first table, falling back to
`PRECOMPILE_TRANSITIONS[-1][1]` when the loop falls through. -/
def get_highest_precompile (block_num : ℕ) : ℕ :=
  (lookupPrecompile PRECOMPILE_TRANSITIONS block_num).getD
    (PRECOMPILE_TRANSITIONS.getLastD (0, 0)).2

/-- The oldest table address (last entry of the newest-first table). -/
def oldestAddr : ℕ := (PRECOMPILE_TRANSITIONS.getLastD (0, 0)).2

/-- The newest table address (first entry of the newest-first table). -/
def newestAddr : ℕ := (PRECOMPILE_TRANSITIONS.headD (0, 0)).2

/-- The second-oldest table address (index 1 of the oldest-first view). -/
def secondOldestAddr : ℕ := ((PRECOMPILE_TRANSITIONS.reverse.getD 1 (0, 0))).2

/-- The third-oldest table address (index 2 of the oldest-first view). -/
def thirdOldestAddr : ℕ := ((PRECOMPILE_TRANSITIONS.reverse.getD 2 (0, 0))).2

end FetchBlocksRpc

/-- C7 (amended). `get_highest_precompile h` returns the address of the
first entry of the newest-first table whose threshold is `≤ h` (an entry
always exists since the last threshold is 0, and every earlier entry has a
threshold `> h`); heights 0 and 41121886 resolve to the oldest address,
height 41121887 resolves to the SECOND-oldest address (0x811), and every
height `≥ 44868476` resolves to the newest address. -/
theorem get_highest_precompile_first_match (h : ℕ) (hge : 44868476 ≤ h) :
    (∀ x : ℕ,
      ∃ i < FetchBlocksRpc.PRECOMPILE_TRANSITIONS.length,
        FetchBlocksRpc.get_highest_precompile x =
          (FetchBlocksRpc.PRECOMPILE_TRANSITIONS.getD i (0, 0)).2 ∧
        (FetchBlocksRpc.PRECOMPILE_TRANSITIONS.getD i (0, 0)).1 ≤ x ∧
        ∀ j < i, x < (FetchBlocksRpc.PRECOMPILE_TRANSITIONS.getD j (0, 0)).1) ∧
    FetchBlocksRpc.get_highest_precompile 0 = FetchBlocksRpc.oldestAddr ∧
    FetchBlocksRpc.get_highest_precompile 41121886 = FetchBlocksRpc.oldestAddr ∧
    FetchBlocksRpc.get_highest_precompile 41121887 =
      FetchBlocksRpc.secondOldestAddr ∧
    FetchBlocksRpc.get_highest_precompile h = FetchBlocksRpc.newestAddr := by
  refine ⟨?_, by decide, by decide, by decide, ?_⟩
  · intro x
    by_cases h1 : 44868476 ≤ x
    · refine ⟨0, by decide, ?_, ?_, ?_⟩
      · simp [FetchBlocksRpc.get_highest_precompile,
          FetchBlocksRpc.lookupPrecompile, FetchBlocksRpc.PRECOMPILE_TRANSITIONS, h1]
      · simpa [FetchBlocksRpc.PRECOMPILE_TRANSITIONS] using h1
      · intro j hj; omega
    · by_cases h2 : 42675776 ≤ x
      · refine ⟨1, by decide, ?_, ?_, ?_⟩
        · simp [FetchBlocksRpc.get_highest_precompile,
            FetchBlocksRpc.lookupPrecompile, FetchBlocksRpc.PRECOMPILE_TRANSITIONS,
            h1, h2]
        · simpa [FetchBlocksRpc.PRECOMPILE_TRANSITIONS] using h2
        · intro j hj
          interval_cases j <;>
            simp [FetchBlocksRpc.PRECOMPILE_TRANSITIONS] <;> omega
      · by_cases h3 : 41121887 ≤ x
        · refine ⟨2, by decide, ?_, ?_, ?_⟩
          · simp [FetchBlocksRpc.get_highest_precompile,
              FetchBlocksRpc.lookupPrecompile, FetchBlocksRpc.PRECOMPILE_TRANSITIONS,
              h1, h2, h3]
          · simpa [FetchBlocksRpc.PRECOMPILE_TRANSITIONS] using h3
          · intro j hj
            interval_cases j <;>
              simp [FetchBlocksRpc.PRECOMPILE_TRANSITIONS] <;> omega
        · refine ⟨3, by decide, ?_, ?_, ?_⟩
          · simp [FetchBlocksRpc.get_highest_precompile,
              FetchBlocksRpc.lookupPrecompile, FetchBlocksRpc.PRECOMPILE_TRANSITIONS,
              h1, h2, h3]
          · simp [FetchBlocksRpc.PRECOMPILE_TRANSITIONS]
          · intro j hj
            interval_cases j <;>
              simp [FetchBlocksRpc.PRECOMPILE_TRANSITIONS] <;> omega
  · have hx : 44868476 ≤ h := hge
    simp [FetchBlocksRpc.get_highest_precompile, FetchBlocksRpc.lookupPrecompile,
      FetchBlocksRpc.PRECOMPILE_TRANSITIONS, FetchBlocksRpc.newestAddr, hx]

/-- Witness for `get_highest_precompile_first_match` at height 44868476. -/
theorem get_highest_precompile_witness :
    44868476 ≤ 44868476 ∧
    FetchBlocksRpc.get_highest_precompile 44868476 = FetchBlocksRpc.newestAddr :=
  ⟨le_refl _,
    (get_highest_precompile_first_match 44868476 (le_refl _)).2.2.2.2⟩

/-- C7 counterexample: height 41121887 does NOT resolve to the third-oldest
table address (0x812); `get_highest_precompile 41121887 = 0x811`, the
second-oldest. -/
theorem get_highest_precompile_not_third_oldest :
    FetchBlocksRpc.get_highest_precompile 41121887 ≠
      FetchBlocksRpc.thirdOldestAddr ∧
    FetchBlocksRpc.get_highest_precompile 41121887 = 0x811 ∧
    FetchBlocksRpc.thirdOldestAddr = 0x812 := by
  refine ⟨by decide, by decide, by decide⟩

namespace FetchBlocksRpc

/-- Value of a single hexadecimal digit character, `none` when the
character is not a hex digit (models CPython digit classification for
`int(_, 16)`). -/
def pyHexDigitVal (c : Char) : Option ℕ :=
  if '0' ≤ c ∧ c ≤ '9' then some (c.toNat - 48)
  else if 'a' ≤ c ∧ c ≤ 'f' then some (c.toNat - 87)
  else if 'A' ≤ c ∧ c ≤ 'F' then some (c.toNat - 55)
  else none

/-- Digits of a base-16 literal after its first digit: hex digits with
single underscores allowed between digits (CPython literal grammar). -/
def hexCoreGo (acc : ℕ) : List Char → Option ℕ
  | [] => some acc
  | '_' :: c :: cs =>
    match pyHexDigitVal c with
    | some v => hexCoreGo (acc * 16 + v) cs
    | none => none
  | c :: cs =>
    match pyHexDigitVal c with
    | some v => hexCoreGo (acc * 16 + v) cs
    | none => none

/-- Optional leading sign; returns (negative?, remaining characters). -/
def stripSign : List Char → Bool × List Char
  | '+' :: cs => (false, cs)
  | '-' :: cs => (true, cs)
  | cs => (false, cs)

/-- Optional `0x`/`0X` base marker; returns (seen?, remaining chars). -/
def stripHexMarker : List Char → Bool × List Char
  | '0' :: 'x' :: cs => (true, cs)
  | '0' :: 'X' :: cs => (true, cs)
  | cs => (false, cs)

/-- Python `str.strip()` on a character list: leading and trailing
whitespace removed. -/
def pyStrip (cs : List Char) : List Char :=
  ((cs.dropWhile Char.isWhitespace).reverse.dropWhile Char.isWhitespace).reverse

/-- Model of CPython `int(s, 16)`: surrounding whitespace stripped, one
optional sign, an optional `0x`/`0X` marker (an underscore may follow the
marker), then a nonempty digit run with single underscores between digits;
`none` models `ValueError`. -/
def pyIntHex (s : String) : Option ℤ :=
  let cs := pyStrip s.toList
  let sn := stripSign cs
  let mk := stripHexMarker sn.2
  let body := if mk.1 then
      (match mk.2 with
       | '_' :: rest => rest
       | rest => rest)
    else mk.2
  match body with
  | [] => none
  | c :: rest =>
    match pyHexDigitVal c with
    | some v =>
      (hexCoreGo v rest).map (fun n => if sn.1 then -(n : ℤ) else (n : ℤ))
    | none => none

/-- `val.to_bytes(n, "big")` for `0 ≤ val < 256^n`: the big-endian byte
string of `val`, zero-padded on the left to exactly `n` bytes. -/
def toBytesBE : ℕ → ℕ → List ℕ
  | _, 0 => []
  | val, n + 1 => toBytesBE (val / 256) n ++ [val % 256]

/-- Integer denoted by a big-endian byte string. -/
def fromBytesBE (bs : List ℕ) : ℕ :=
  bs.foldl (fun a b => a * 256 + b) 0

/-- `hex_to_bytes` from `scripts/fetch_blocks_rpc.py` (lines 72-74):
`val = int(h, 16) if h and h != "0x" else 0; return val.to_bytes(length,
"big")`.  `none` models an escaping `ValueError` (bad hex) or
`OverflowError` (negative value, or value not fitting in `length`
bytes). -/
def hex_to_bytes (h : String) (length : ℕ) : Option (List ℕ) :=
  let val : Option ℤ := if h = "" ∨ h = "0x" then some 0 else pyIntHex h
  match val with
  | none => none
  | some v =>
    if 0 ≤ v ∧ v < (256 : ℤ) ^ length then some (toBytesBE v.toNat length)
    else none

theorem toBytesBE_length (v n : ℕ) : (toBytesBE v n).length = n := by
  induction n generalizing v with
  | zero => rfl
  | succ n ih => simp [toBytesBE, ih]

theorem toBytesBE_zero (n : ℕ) : toBytesBE 0 n = List.replicate n 0 := by
  induction n with
  | zero => rfl
  | succ n ih => simp [toBytesBE, ih, List.replicate_succ']

theorem fromBytesBE_toBytesBE (n v : ℕ) (hv : v < 256 ^ n) :
    fromBytesBE (toBytesBE v n) = v := by
  induction n generalizing v with
  | zero => simp at hv; simp [hv, toBytesBE, fromBytesBE]
  | succ n ih =>
    have hdiv : v / 256 < 256 ^ n := by
      rw [Nat.div_lt_iff_lt_mul (by norm_num)]
      calc v < 256 ^ (n + 1) := hv
        _ = 256 ^ n * 256 := by ring
    have hrec := ih (v / 256) hdiv
    simp only [toBytesBE, fromBytesBE, List.foldl_append, List.foldl_cons,
      List.foldl_nil] at *
    rw [hrec]
    omega

theorem toBytesBE_lt_256 (v n : ℕ) : ∀ b ∈ toBytesBE v n, b < 256 := by
  induction n generalizing v with
  | zero => simp [toBytesBE]
  | succ n ih =>
    intro b hb
    simp only [toBytesBE, List.mem_append, List.mem_singleton] at hb
    rcases hb with hb | hb
    · exact ih (v / 256) b hb
    · omega

end FetchBlocksRpc

/-- C10. The fixed-width hex decoder is partial: whenever `int(h, 16)`
succeeds with a value `v` satisfying `0 ≤ v < 256^L`, `hex_to_bytes h L`
returns exactly `L` bytes, each `< 256`, whose big-endian value is `v`
(`""` and `"0x"` decode to `L` zero bytes); and `hex_to_bytes` raises
(returns `none`) rather than truncating both when the value is negative or
`≥ 256^L` and when the string is not valid hexadecimal. -/
theorem hex_to_bytes_spec (h : String) (L : ℕ) (hs : h ≠ "") (hx : h ≠ "0x") :
    (∀ v : ℤ, FetchBlocksRpc.pyIntHex h = some v → 0 ≤ v →
      v < (256 : ℤ) ^ L →
      FetchBlocksRpc.hex_to_bytes h L =
          some (FetchBlocksRpc.toBytesBE v.toNat L) ∧
        (FetchBlocksRpc.toBytesBE v.toNat L).length = L ∧
        (FetchBlocksRpc.fromBytesBE (FetchBlocksRpc.toBytesBE v.toNat L) : ℤ)
          = v ∧
        ∀ b ∈ FetchBlocksRpc.toBytesBE v.toNat L, b < 256) ∧
    FetchBlocksRpc.hex_to_bytes "" L = some (List.replicate L 0) ∧
    FetchBlocksRpc.hex_to_bytes "0x" L = some (List.replicate L 0) ∧
    (∀ v : ℤ, FetchBlocksRpc.pyIntHex h = some v →
      (v < 0 ∨ (256 : ℤ) ^ L ≤ v) → FetchBlocksRpc.hex_to_bytes h L = none) ∧
    (FetchBlocksRpc.pyIntHex h = none →
      FetchBlocksRpc.hex_to_bytes h L = none) := by
  have hcond : ¬ (h = "" ∨ h = "0x") := by simp [hs, hx]
  refine ⟨?_, ?_, ?_, ?_, ?_⟩
  · intro v hv h0 hlt
    have htn : (v.toNat : ℤ) = v := Int.toNat_of_nonneg h0
    have htlt : v.toNat < 256 ^ L := by
      have : ((256 : ℕ) ^ L : ℤ) = (256 : ℤ) ^ L := by push_cast; ring
      omega
    refine ⟨?_, FetchBlocksRpc.toBytesBE_length _ _, ?_,
      FetchBlocksRpc.toBytesBE_lt_256 _ _⟩
    · simp only [FetchBlocksRpc.hex_to_bytes, hcond, if_false, hv]
      rw [if_pos ⟨h0, hlt⟩]
    · rw [FetchBlocksRpc.fromBytesBE_toBytesBE L v.toNat htlt, htn]
  · simp [FetchBlocksRpc.hex_to_bytes, FetchBlocksRpc.toBytesBE_zero,
      pow_pos]
  · simp [FetchBlocksRpc.hex_to_bytes, FetchBlocksRpc.toBytesBE_zero,
      pow_pos]
  · intro v hv hbad
    simp only [FetchBlocksRpc.hex_to_bytes, hcond, if_false, hv]
    rw [if_neg]
    push_neg
    intro h0
    omega
  · intro hv
    simp [FetchBlocksRpc.hex_to_bytes, hcond, hv]

/-- Witness for `hex_to_bytes_spec`: `hex_to_bytes "0xff" 2 = [0, 255]`. -/
theorem hex_to_bytes_witness :
    FetchBlocksRpc.pyIntHex "0xff" = some 255 ∧
    FetchBlocksRpc.hex_to_bytes "0xff" 2 = some [0, 255] := by
  have hp : FetchBlocksRpc.pyIntHex "0xff" = some 255 := by decide
  have hmain := (hex_to_bytes_spec "0xff" 2 (by decide) (by decide)).1 255 hp
    (by norm_num) (by norm_num)
  exact ⟨hp, by rw [hmain.1]; rfl⟩

namespace FetchBlocksRpc

/-- `MAX_RETRIES` from `scripts/fetch_blocks_rpc.py` (line 54). -/
def MAX_RETRIES : ℕ := 5

/-- `RETRY_DELAY` from `scripts/fetch_blocks_rpc.py` (line 53), seconds. -/
def RETRY_DELAY : ℕ := 2

/-- A decoded JSON-RPC HTTP reply body: either an array of responses or a
single dict, which may or may not carry an `"error"` member. -/
inductive RpcReply (α : Type) where
  | arr (rs : List α)
  | dict (hasError : Bool) (payload : α)
deriving DecidableEq

/-- What one HTTP attempt inside `rpc_call` observes: a decoded reply, a
transport failure (`requests.RequestException` from `post` /
`raise_for_status`), or a JSON decode failure (`json.JSONDecodeError`). -/
inductive RpcAttempt (α : Type) where
  | ok (r : RpcReply α)
  | transportErr
  | decodeErr
deriving DecidableEq

/-- The exception kinds that can escape an attempt of `rpc_call`. -/
inductive RpcFailure where
  | transport
  | decode
  | protocol
deriving DecidableEq

/-- The body of one `rpc_call` attempt (lines 250-263): a list reply is
returned as-is; a dict reply with an `"error"` member raises
`requests.RequestException` (the batch-level protocol error); any other
reply is wrapped in a singleton list; transport and decode failures raise
their exceptions. -/
def attemptOutcome {α : Type} : RpcAttempt α → Except RpcFailure (List α)
  | .ok (.arr rs) => .ok rs
  | .ok (.dict true _) => .error .protocol
  | .ok (.dict false p) => .ok [p]
  | .transportErr => .error .transport
  | .decodeErr => .error .decode

/-- The retry loop of `rpc_call` (lines 249-276), with `rem` retries left
after the current attempt `a`; returns the final result together with the
list of back-off sleeps `RETRY_DELAY * 2**attempt` that were performed.
Every exception raised inside the `try` block - including the protocol
error raised for a single error dict - is caught by the
`except (requests.RequestException, json.JSONDecodeError)` clause and
retried while attempts remain. -/
def rpcCallGo {α : Type} (attempts : ℕ → RpcAttempt α) :
    ℕ → ℕ → Except RpcFailure (List α) × List ℕ
  | a, 0 =>
    match attemptOutcome (attempts a) with
    | .ok rs => (.ok rs, [])
    | .error e => (.error e, [])
  | a, rem + 1 =>
    match attemptOutcome (attempts a) with
    | .ok rs => (.ok rs, [])
    | .error _ =>
      let p := rpcCallGo attempts (a + 1) rem
      (p.1, RETRY_DELAY * 2 ^ a :: p.2)

/-- `rpc_call` from `scripts/fetch_blocks_rpc.py` (lines 247-276), as a
function of what each attempt observes. -/
def rpc_call {α : Type} (attempts : ℕ → RpcAttempt α) :
    Except RpcFailure (List α) × List ℕ :=
  rpcCallGo attempts 0 (MAX_RETRIES - 1)

theorem rpcCallGo_ok {α : Type} (attempts : ℕ → RpcAttempt α) (a rem : ℕ)
    (rs : List α) (h : attemptOutcome (attempts a) = .ok rs) :
    rpcCallGo attempts a rem = (.ok rs, []) := by
  cases rem <;> simp [rpcCallGo, h]

theorem rpcCallGo_err_succ {α : Type} (attempts : ℕ → RpcAttempt α)
    (a rem : ℕ) (e : RpcFailure)
    (h : attemptOutcome (attempts a) = .error e) :
    rpcCallGo attempts a (rem + 1) =
      ((rpcCallGo attempts (a + 1) rem).1,
       RETRY_DELAY * 2 ^ a :: (rpcCallGo attempts (a + 1) rem).2) := by
  simp [rpcCallGo, h]

theorem rpcCallGo_err_zero {α : Type} (attempts : ℕ → RpcAttempt α)
    (a : ℕ) (e : RpcFailure) (h : attemptOutcome (attempts a) = .error e) :
    rpcCallGo attempts a 0 = (.error e, []) := by
  simp [rpcCallGo, h]

theorem rpcCallGo_spec_ok {α : Type} (attempts : ℕ → RpcAttempt α) :
    ∀ (k a : ℕ) (rs : List α),
      (∀ b < k, ∃ e, attemptOutcome (attempts (a + b)) = .error e) →
      attemptOutcome (attempts (a + k)) = .ok rs →
      ∀ rem, k ≤ rem →
      rpcCallGo attempts a rem =
        (.ok rs, (List.range k).map (fun i => RETRY_DELAY * 2 ^ (a + i))) := by
  intro k
  induction k with
  | zero =>
    intro a rs _ hok rem _
    simpa using rpcCallGo_ok attempts a rem rs (by simpa using hok)
  | succ k ih =>
    intro a rs hfail hok rem hrem
    obtain ⟨rem, rfl⟩ : ∃ r, rem = r + 1 := ⟨rem - 1, by omega⟩
    obtain ⟨e, he⟩ := hfail 0 (by omega)
    rw [rpcCallGo_err_succ attempts a rem e (by simpa using he)]
    have hrec := ih (a + 1) rs
      (fun b hb => by
        have := hfail (b + 1) (by omega)
        simpa [Nat.add_assoc, Nat.add_comm 1 b] using this)
      (by
        have : a + 1 + k = a + (k + 1) := by omega
        rw [this]; exact hok)
      rem (by omega)
    rw [hrec]
    simp [List.range_succ_eq_map, List.map_map, Function.comp]
    intro i _
    omega

theorem rpcCallGo_spec_err {α : Type} (attempts : ℕ → RpcAttempt α) :
    ∀ (k a : ℕ),
      (∀ b ≤ k, ∃ e, attemptOutcome (attempts (a + b)) = .error e) →
      ∃ e, attemptOutcome (attempts (a + k)) = .error e ∧
        rpcCallGo attempts a k =
          (.error e, (List.range k).map (fun i => RETRY_DELAY * 2 ^ (a + i))) := by
  intro k
  induction k with
  | zero =>
    intro a hfail
    obtain ⟨e, he⟩ := hfail 0 (by omega)
    exact ⟨e, by simpa using he,
      by simpa using rpcCallGo_err_zero attempts a e (by simpa using he)⟩
  | succ k ih =>
    intro a hfail
    obtain ⟨e0, he0⟩ := hfail 0 (by omega)
    obtain ⟨e, he, hgo⟩ := ih (a + 1)
      (fun b hb => by
        have := hfail (b + 1) (by omega)
        simpa [Nat.add_assoc, Nat.add_comm 1 b] using this)
    refine ⟨e, by
      have : a + 1 + k = a + (k + 1) := by omega
      rw [← this]; exact he, ?_⟩
    rw [rpcCallGo_err_succ attempts a k e0 (by simpa using he0), hgo]
    simp [List.range_succ_eq_map, List.map_map, Function.comp]
    intro i _
    omega

end FetchBlocksRpc

/-- C3 (amended). A single error object returned instead of a batch array
is converted into a `requests.RequestException` raised inside the `try`
block of `rpc_call`, so it IS retried internally exactly like transport
and decode failures: whenever the first `a < MAX_RETRIES` attempts fail
(with any mix of transport, decode or protocol failures) and attempt `a`
yields an array, `rpc_call` returns that array after back-off sleeps
`RETRY_DELAY * 2^i` for `i < a`; only when all `MAX_RETRIES` attempts fail
does the last failure - protocol errors included - propagate to the
caller. -/
theorem rpc_call_retries_protocol_errors
    (attempts : ℕ → FetchBlocksRpc.RpcAttempt ℕ) (a : ℕ) (rs : List ℕ)
    (ha : a < FetchBlocksRpc.MAX_RETRIES)
    (hfail : ∀ b < a, ∃ e,
      FetchBlocksRpc.attemptOutcome (attempts b) = Except.error e)
    (hok : FetchBlocksRpc.attemptOutcome (attempts a) = Except.ok rs) :
    (∀ p : ℕ, FetchBlocksRpc.attemptOutcome
        (FetchBlocksRpc.RpcAttempt.ok (FetchBlocksRpc.RpcReply.dict true p)) =
      Except.error FetchBlocksRpc.RpcFailure.protocol) ∧
    FetchBlocksRpc.rpc_call attempts =
      (Except.ok rs,
        (List.range a).map (fun i => FetchBlocksRpc.RETRY_DELAY * 2 ^ i)) ∧
    (∀ att2 : ℕ → FetchBlocksRpc.RpcAttempt ℕ,
      (∀ b < FetchBlocksRpc.MAX_RETRIES, ∃ e,
        FetchBlocksRpc.attemptOutcome (att2 b) = Except.error e) →
      ∃ e, FetchBlocksRpc.attemptOutcome
          (att2 (FetchBlocksRpc.MAX_RETRIES - 1)) = Except.error e ∧
        FetchBlocksRpc.rpc_call att2 =
          (Except.error e,
            (List.range (FetchBlocksRpc.MAX_RETRIES - 1)).map
              (fun i => FetchBlocksRpc.RETRY_DELAY * 2 ^ i))) := by
  refine ⟨fun p => rfl, ?_, ?_⟩
  · have := FetchBlocksRpc.rpcCallGo_spec_ok attempts a 0 rs
      (by simpa using hfail) (by simpa using hok)
      (FetchBlocksRpc.MAX_RETRIES - 1)
      (by simp [FetchBlocksRpc.MAX_RETRIES] at ha ⊢; omega)
    simpa [FetchBlocksRpc.rpc_call] using this
  · intro att2 hfail2
    have := FetchBlocksRpc.rpcCallGo_spec_err att2
      (FetchBlocksRpc.MAX_RETRIES - 1) 0
      (fun b hb => by
        rw [Nat.zero_add]
        refine hfail2 b ?_
        simp [FetchBlocksRpc.MAX_RETRIES] at hb ⊢
        omega)
    simpa [FetchBlocksRpc.rpc_call] using this

/-- Witness for `rpc_call_retries_protocol_errors`: a protocol error on
attempt 0 followed by an array on attempt 1 yields the array after one
2-second back-off sleep. -/
theorem rpc_call_retries_witness :
    FetchBlocksRpc.rpc_call
        (fun a => if a = 0
          then FetchBlocksRpc.RpcAttempt.ok (FetchBlocksRpc.RpcReply.dict true 0)
          else FetchBlocksRpc.RpcAttempt.ok (FetchBlocksRpc.RpcReply.arr [7])) =
      (Except.ok [7], [2]) := by
  have h := (rpc_call_retries_protocol_errors
    (fun a => if a = 0
      then FetchBlocksRpc.RpcAttempt.ok (FetchBlocksRpc.RpcReply.dict true 0)
      else FetchBlocksRpc.RpcAttempt.ok (FetchBlocksRpc.RpcReply.arr [7]))
    1 [7] (by simp [FetchBlocksRpc.MAX_RETRIES])
    (fun b hb => ⟨FetchBlocksRpc.RpcFailure.protocol, by
      interval_cases b
      rfl⟩)
    rfl).2.1
  simpa [FetchBlocksRpc.RETRY_DELAY] using h

/-- C3 counterexample: with a single error dict on attempt 0 and an array
on attempt 1, `rpc_call` returns the attempt-1 array after a retry sleep -
the protocol error did NOT propagate immediately to the caller as the
claim states. -/
theorem rpc_call_protocol_error_not_immediate :
    FetchBlocksRpc.rpc_call
        (fun a => if a = 0
          then FetchBlocksRpc.RpcAttempt.ok (FetchBlocksRpc.RpcReply.dict true 0)
          else FetchBlocksRpc.RpcAttempt.ok (FetchBlocksRpc.RpcReply.arr [7])) ≠
      (Except.error FetchBlocksRpc.RpcFailure.protocol, []) := by
  have h : FetchBlocksRpc.rpc_call
      (fun a => if a = 0
        then FetchBlocksRpc.RpcAttempt.ok (FetchBlocksRpc.RpcReply.dict true 0)
        else FetchBlocksRpc.RpcAttempt.ok (FetchBlocksRpc.RpcReply.arr [7])) =
      (Except.ok [7], [2]) := rfl
  rw [h]
  simp

namespace FetchBlocksRpc

/-- Python `range(start, end + 1)` as an inclusive list of heights. -/
def rangeIncl (start stop : ℕ) : List ℕ :=
  (List.range (stop + 1 - start)).map (· + start)

/-- `os.path.exists(block_path(blocks_dir, bnum))`, with the cache
abstracted by the set of heights whose entry file is present
(`block_path` maps distinct heights to distinct paths, the file name
embedding the height). -/
def cacheHas (present : List ℕ) (bnum : ℕ) : Bool := present.contains bnum

/-- `find_missing_blocks` from `scripts/fetch_blocks_rpc.py` (lines
279-288): every height of `[start, end]` without a cache entry. -/
def find_missing_blocks (present : List ℕ) (start stop : ℕ) : List ℕ :=
  (rangeIncl start stop).filter (fun b => !(cacheHas present b))

/-- The fast-mode (no `--scan-gaps`) branch of `main` (lines 448-454):
despite the comment "Assume everything from start to end is missing", the
loop still tests `os.path.exists(path)` for each height of the range and
keeps only the absent ones. -/
def fast_mode_missing (present : List ℕ) (start stop : ℕ) : List ℕ :=
  (rangeIncl start stop).filter (fun b => !(cacheHas present b))

end FetchBlocksRpc

/-- C4 (code bug). The fast-mode branch does NOT take the whole range: it
performs exactly the same per-height existence filter as the exhaustive
`find_missing_blocks` branch, contradicting its own "Assume everything
from start to end is missing" comment; with block 5 already cached and
range `[5, 5]`, fast mode selects `[]`, not the full range `[5]`. -/
theorem fast_mode_filters_existing_blocks :
    (∀ present start stop,
      FetchBlocksRpc.fast_mode_missing present start stop =
        FetchBlocksRpc.find_missing_blocks present start stop) ∧
    FetchBlocksRpc.rangeIncl 5 5 = [5] ∧
    FetchBlocksRpc.fast_mode_missing [5] 5 5 = [] ∧
    FetchBlocksRpc.fast_mode_missing [5] 5 5 ≠ FetchBlocksRpc.rangeIncl 5 5 := by
  refine ⟨fun _ _ _ => rfl, by decide, by decide, by decide⟩

namespace CacheFs

/-- One entry of the on-disk block cache tree: a subdirectory with its own
entries, or a plain file.  The list order of children is the (arbitrary)
`os.listdir` / `Path.iterdir` order. -/
inductive FSEntry where
  | dir (name : String) (children : List FSEntry)
  | file (name : String)

/-- The entry's name as listed by `os.listdir`. -/
def FSEntry.entryName : FSEntry → String
  | .dir n _ => n
  | .file n => n

/-- `os.listdir`: the names of the entries of a directory. -/
def listNames (children : List FSEntry) : List String :=
  children.map FSEntry.entryName

/-- Resolve a listed name back to its entry. -/
def childNamed (children : List FSEntry) (s : String) : Option FSEntry :=
  children.find? (fun e => e.entryName == s)

/-- Python `str.isdigit` (ASCII): nonempty and all characters digits. -/
def pyIsdigit (s : String) : Bool :=
  !s.isEmpty && s.toList.all Char.isDigit

/-- Stable insertion of `x` after every already-placed `y` with `le y x`
(building block of Python's stable `sorted`). -/
def pyInsert {α : Type} (le : α → α → Bool) (x : α) : List α → List α
  | [] => [x]
  | y :: ys => if le y x then y :: pyInsert le x ys else x :: y :: ys

/-- Python `sorted` under the total preorder `le` (stable). -/
def pySorted {α : Type} (le : α → α → Bool) (xs : List α) : List α :=
  xs.foldl (fun acc x => pyInsert le x acc) []

/-- A single decimal digit's value, `none` for a non-digit. -/
def pyDecDigitVal (c : Char) : Option ℕ :=
  if '0' ≤ c ∧ c ≤ '9' then some (c.toNat - 48) else none

/-- Digits of a base-10 literal after its first digit (single underscores
between digits allowed, as in CPython). -/
def decCoreGo (acc : ℕ) : List Char → Option ℕ
  | [] => some acc
  | '_' :: c :: cs =>
    match pyDecDigitVal c with
    | some v => decCoreGo (acc * 10 + v) cs
    | none => none
  | c :: cs =>
    match pyDecDigitVal c with
    | some v => decCoreGo (acc * 10 + v) cs
    | none => none

/-- Model of CPython `int(s)`: stripped whitespace, optional sign, then a
nonempty decimal digit run; `none` models `ValueError`. -/
def pyIntDec (s : String) : Option ℤ :=
  let cs := FetchBlocksRpc.pyStrip s.toList
  let sn := FetchBlocksRpc.stripSign cs
  match sn.2 with
  | [] => none
  | c :: rest =>
    match pyDecDigitVal c with
    | some v =>
      (decCoreGo v rest).map (fun n => if sn.1 then -(n : ℤ) else (n : ℤ))
    | none => none

/-- Comparator for Python's `sorted(..., key=int)` on digit strings. -/
def intKeyLe (a b : String) : Bool :=
  ((pyIntDec a).getD 0) ≤ ((pyIntDec b).getD 0)

/-- Lexicographic order on character lists by code point (Python string
comparison). -/
def lexLe : List Char → List Char → Bool
  | [], _ => true
  | _ :: _, [] => false
  | a :: as, b :: bs =>
    if a.toNat < b.toNat then true
    else if b.toNat < a.toNat then false
    else lexLe as bs

/-- Comparator for Python's plain lexical `sorted` on strings. -/
def strLe (a b : String) : Bool := lexLe a.toList b.toList

/-- Does `cs` start with `pat`? -/
def startsWithChars : List Char → List Char → Bool
  | [], _ => true
  | _ :: _, [] => false
  | p :: ps, c :: cs => p == c && startsWithChars ps cs

/-- Python `str.endswith(pat)`. -/
def endsWithChars (cs pat : List Char) : Bool :=
  startsWithChars pat.reverse cs.reverse

/-- Python `str.replace(pat, sub)` with nonempty `pat`: every occurrence
replaced left to right.  The fuel argument (instantiated with the string
length) keeps the recursion structural. -/
def replaceAllGo (pat sub : List Char) : ℕ → List Char → List Char
  | 0, cs => cs
  | _, [] => []
  | fuel + 1, c :: cs =>
    if startsWithChars pat (c :: cs) ∧ pat ≠ [] then
      sub ++ replaceAllGo pat sub fuel ((c :: cs).drop pat.length)
    else c :: replaceAllGo pat sub fuel cs

/-- Python `str.replace` entry point. -/
def pyReplace (cs pat sub : List Char) : List Char :=
  replaceAllGo pat sub cs.length cs

/-- `pathlib.PurePath.suffix` of an entry name: the `.ext` part when the
last dot is neither the first nor the last character, else empty. -/
def pySuffix (cs : List Char) : List Char :=
  let after := cs.reverse.takeWhile (fun c => c != '.')
  if after.length = cs.length then []
  else if after.isEmpty then []
  else if cs.length = after.length + 1 then []
  else '.' :: after.reverse

/-- `pathlib.PurePath.stem`: the name minus its suffix. -/
def pyStem (cs : List Char) : List Char :=
  cs.take (cs.length - (pySuffix cs).length)

/-- `find_cache_latest` from `scripts/fetch_blocks_rpc.py` (lines
369-388): descend only into the numerically largest digit-named million
directory, then its numerically largest digit-named thousand directory,
sort the `.rmp.lz4` file names there LEXICALLY, and parse the last one.
`none` models an escaping exception (`NotADirectoryError` from listing a
file, or `ValueError` from `int` on a non-numeric stem). -/
def find_cache_latest (root : List FSEntry) : Option ℤ :=
  let millions := pySorted intKeyLe ((listNames root).filter pyIsdigit)
  match millions.getLast? with
  | none => some 0
  | some mname =>
    match childNamed root mname with
    | some (.dir _ mchildren) =>
      let thousands := pySorted intKeyLe ((listNames mchildren).filter pyIsdigit)
      match thousands.getLast? with
      | none => some 0
      | some tname =>
        match childNamed mchildren tname with
        | some (.dir _ tchildren) =>
          let files := pySorted strLe ((listNames tchildren).filter
            (fun f => endsWithChars f.toList ".rmp.lz4".toList))
          match files.getLast? with
          | none => some 0
          | some fname =>
            pyIntDec (String.mk (pyReplace fname.toList ".rmp.lz4".toList []))
        | _ => none
    | _ => none

/-- The inner file scan of `find_latest_local_block` (lines 49-56):
entries with suffix `.lz4` have `int(f.stem.split(".")[0])` tried; a
`ValueError` is swallowed and the entry skipped. -/
def fllbFile (best : ℤ) (e : FSEntry) : ℤ :=
  if pySuffix e.entryName.toList == ".lz4".toList then
    match pyIntDec (String.mk
        ((pyStem e.entryName.toList).takeWhile (fun c => c != '.'))) with
    | some bn => if bn > best then bn else best
    | none => best
  else best

/-- `find_latest_local_block` from `scripts/check_block_completeness.py`
(lines 40-57): walk every digit-named directory two levels deep (sorted
lexically, which cannot change the running maximum) and keep the highest
parsed block number of any `.lz4` entry; non-numeric entries are
skipped. -/
def find_latest_local_block (root : List FSEntry) : ℤ :=
  (pySorted (fun a b => strLe a.entryName b.entryName) root).foldl
    (fun best m =>
      match m with
      | .dir mname mchildren =>
        if pyIsdigit mname then
          (pySorted (fun a b => strLe a.entryName b.entryName) mchildren).foldl
            (fun best2 t =>
              match t with
              | .dir tname tchildren =>
                if pyIsdigit tname then tchildren.foldl fllbFile best2
                else best2
              | .file _ => best2)
            best
        else best
      | .file _ => best)
    0

/-- A cache whose top thousand-directory holds blocks 999 and 1000. -/
def treeLexical : List FSEntry :=
  [.dir "0" [.dir "0" [.file "999.rmp.lz4", .file "1000.rmp.lz4"]]]

/-- A cache whose numerically largest thousand-directory is empty while an
earlier one holds block 5. -/
def treeEmptyTop : List FSEntry :=
  [.dir "0" [.dir "0" [.file "5.rmp.lz4"], .dir "1000" []]]

/-- A cache whose top thousand-directory holds a non-numeric `.rmp.lz4`
entry next to block 7. -/
def treeNonNumeric : List FSEntry :=
  [.dir "0" [.dir "0" [.file "abc.rmp.lz4", .file "7.rmp.lz4"]]]

end CacheFs

/-- C5 (code bug). `find_latest_local_block` behaves as claimed on the
example caches (numerically highest entry, 0 when none, non-numeric
entries skipped), but `find_cache_latest` does not: it sorts file names
lexically, returning 999 for a directory holding 999 and 1000; it returns
0 when the numerically largest thousand-directory is empty even though
block 5 exists elsewhere; and it raises `ValueError` (models as `none`)
on a non-numeric `.rmp.lz4` name instead of skipping it. -/
theorem find_cache_latest_lexical_file_sort :
    CacheFs.find_cache_latest CacheFs.treeLexical = some 999 ∧
    CacheFs.find_latest_local_block CacheFs.treeLexical = 1000 ∧
    CacheFs.find_cache_latest CacheFs.treeEmptyTop = some 0 ∧
    CacheFs.find_latest_local_block CacheFs.treeEmptyTop = 5 ∧
    CacheFs.find_cache_latest CacheFs.treeNonNumeric = none ∧
    CacheFs.find_latest_local_block CacheFs.treeNonNumeric = 7 ∧
    CacheFs.find_cache_latest [] = some 0 ∧
    CacheFs.find_latest_local_block [] = 0 := by
  refine ⟨by decide, by decide, by decide, by decide, by decide, by decide,
    by decide, by decide⟩

namespace FetchBlocksRpc

/-- The inter-batch pacing state of `main` (lines 475-476): the current
inter-batch sleep and the consecutive-success counter.  Delays are
embedded as exact rationals (the float arithmetic of the loop is `*2`,
`*0.8`, `min`, `max`). -/
structure PaceState where
  current_delay : ℚ
  consecutive_ok : ℕ
deriving DecidableEq

/-- One fetch-loop iteration's update of the pacing state (lines 481-497):
on success `consecutive_ok += 1` and, once it has reached 5 while the
delay is above baseline, `current_delay = max(args.delay,
current_delay * 0.8)`; on a batch failure `current_delay =
min(current_delay * 2, 120)` and `consecutive_ok = 0`. -/
def paceStep (baseline : ℚ) (s : PaceState) (success : Bool) : PaceState :=
  if success then
    let ok := s.consecutive_ok + 1
    if 5 ≤ ok ∧ baseline < s.current_delay then
      { current_delay := max baseline (s.current_delay * (4 / 5)),
        consecutive_ok := ok }
    else
      { current_delay := s.current_delay, consecutive_ok := ok }
  else
    { current_delay := min (s.current_delay * 2) 120, consecutive_ok := 0 }

/-- Pacing states reachable from the start `(args.delay, 0)` (lines
475-476) by any sequence of batch outcomes. -/
inductive PaceReachable (baseline : ℚ) : PaceState → Prop where
  | init : PaceReachable baseline ⟨baseline, 0⟩
  | step (s : PaceState) (o : Bool) :
      PaceReachable baseline s → PaceReachable baseline (paceStep baseline s o)

/-- Observable events of the fetch loop: processing one batch, or the
`time.sleep(current_delay)` rate-limit pause. -/
inductive PaceEvent where
  | batch (success : Bool)
  | sleep (d : ℚ)

/-- The event trace of the fetch loop (lines 479-520) over a list of batch
outcomes: the `if i + len(batch) < len(missing)` guard sleeps after every
batch except the last, with the post-update delay. -/
def paceTrace (baseline : ℚ) : PaceState → List Bool → List PaceEvent
  | _, [] => []
  | _, [o] => [.batch o]
  | s, o :: o2 :: os =>
    .batch o :: .sleep (paceStep baseline s o).current_delay ::
      paceTrace baseline (paceStep baseline s o) (o2 :: os)

/-- Number of sleep events in a trace. -/
def countSleeps : List PaceEvent → ℕ
  | [] => 0
  | .sleep _ :: es => countSleeps es + 1
  | .batch _ :: es => countSleeps es

/-- Number of batch events in a trace. -/
def countBatches : List PaceEvent → ℕ
  | [] => 0
  | .batch _ :: es => countBatches es + 1
  | .sleep _ :: es => countBatches es

/-- Does the trace consist of batches with single sleeps strictly between
them (so it starts and ends with a batch and no sleep is adjacent to
another sleep)? -/
def altShape : List PaceEvent → Bool
  | [.batch _] => true
  | .batch _ :: .sleep _ :: rest => altShape rest
  | _ => false

theorem paceReachable_delay_ge (baseline : ℚ) (h0 : 0 ≤ baseline)
    (h120 : baseline ≤ 120) :
    ∀ s, PaceReachable baseline s → baseline ≤ s.current_delay := by
  intro s hs
  induction hs with
  | init => exact le_refl baseline
  | step t o _ ih =>
    cases o with
    | true =>
      by_cases hc : 4 ≤ t.consecutive_ok ∧ baseline < t.current_delay
      · have heq : (paceStep baseline t true).current_delay =
            max baseline (t.current_delay * (4 / 5)) := by
          simp [paceStep, hc.1, hc.2]
        rw [heq]
        exact le_max_left _ _
      · simpa [paceStep, hc] using ih
    | false =>
      have hd : 0 ≤ t.current_delay := le_trans h0 ih
      simp only [paceStep, Bool.false_eq_true, if_false]
      exact le_min (by linarith) h120

theorem paceTrace_shape (baseline : ℚ) :
    ∀ (os : List Bool) (s : PaceState), os ≠ [] →
      countBatches (paceTrace baseline s os) = os.length ∧
      countSleeps (paceTrace baseline s os) = os.length - 1 ∧
      altShape (paceTrace baseline s os) = true := by
  intro os
  induction os with
  | nil => intro s hs; exact absurd rfl hs
  | cons o os ih =>
    intro s _
    cases os with
    | nil => simp [paceTrace, countBatches, countSleeps, altShape]
    | cons o2 os2 =>
      have hrec := ih (paceStep baseline s o) (by simp)
      simp only [paceTrace, countBatches, countSleeps, altShape, List.length_cons]
      refine ⟨by rw [hrec.1]; simp, by rw [hrec.2.1]; simp, hrec.2.2⟩

end FetchBlocksRpc

/-- C6 (amended). The pacing state starts at `(baseline, 0)`; a batch
failure sets the delay to `min(2·delay, 120)` and zeroes the success
streak; a success increments the streak, and once the streak has reached 5
with the delay above baseline the delay becomes `max(baseline,
0.8·delay)`; PROVIDED the baseline lies in `[0, 120]` (the hard cap), every
reachable state keeps `current_delay ≥ baseline`; and the loop sleeps only
between batches: for a nonempty outcome list the trace has one batch event
per outcome, exactly `n - 1` sleeps, and starts and ends with a batch. -/
theorem pacing_state_machine (baseline : ℚ) (h0 : 0 ≤ baseline)
    (h120 : baseline ≤ 120) :
    (∀ s, FetchBlocksRpc.paceStep baseline s false =
      ⟨min (s.current_delay * 2) 120, 0⟩) ∧
    (∀ s, (FetchBlocksRpc.paceStep baseline s true).consecutive_ok =
      s.consecutive_ok + 1) ∧
    (∀ s, 5 ≤ s.consecutive_ok + 1 → baseline < s.current_delay →
      (FetchBlocksRpc.paceStep baseline s true).current_delay =
        max baseline (s.current_delay * (4 / 5))) ∧
    (∀ s, FetchBlocksRpc.PaceReachable baseline s →
      baseline ≤ s.current_delay) ∧
    (∀ (os : List Bool) (s : FetchBlocksRpc.PaceState), os ≠ [] →
      FetchBlocksRpc.countBatches (FetchBlocksRpc.paceTrace baseline s os) =
        os.length ∧
      FetchBlocksRpc.countSleeps (FetchBlocksRpc.paceTrace baseline s os) =
        os.length - 1 ∧
      FetchBlocksRpc.altShape (FetchBlocksRpc.paceTrace baseline s os)
        = true) := by
  refine ⟨fun s => rfl, ?_, ?_, FetchBlocksRpc.paceReachable_delay_ge baseline h0 h120,
    FetchBlocksRpc.paceTrace_shape baseline⟩
  · intro s
    by_cases hc : 4 ≤ s.consecutive_ok ∧ baseline < s.current_delay
    · simp [FetchBlocksRpc.paceStep, hc.1, hc.2]
    · simp [FetchBlocksRpc.paceStep, hc]
  · intro s h5 hgt
    have h4 : 4 ≤ s.consecutive_ok := by omega
    simp [FetchBlocksRpc.paceStep, h4, hgt]

/-- Witness for `pacing_state_machine` at baseline 5: a failure from state
`(5, 0)` doubles the delay to 10, and a fifth success at delay 10 relaxes
it to `max 5 8 = 8`. -/
theorem pacing_state_machine_witness :
    (0 : ℚ) ≤ 5 ∧ (5 : ℚ) ≤ 120 ∧
    (FetchBlocksRpc.paceStep 5 ⟨5, 0⟩ false).current_delay = 10 ∧
    (FetchBlocksRpc.paceStep 5 ⟨10, 4⟩ true).current_delay = 8 := by
  have hm := pacing_state_machine 5 (by norm_num) (by norm_num)
  refine ⟨by norm_num, by norm_num, ?_, ?_⟩
  · rw [hm.1 ⟨5, 0⟩]
    norm_num
  · rw [hm.2.2.1 ⟨10, 4⟩ (by norm_num) (by norm_num)]
    norm_num
/-- C6 counterexample: with baseline 200 (`--delay 200`), the state after
one batch failure is reachable and has delay `min(400, 120) = 120 < 200`,
refuting "current_delay never drops below the baseline" as universally
stated. -/
theorem pacing_delay_below_baseline :
    FetchBlocksRpc.PaceReachable 200
      (FetchBlocksRpc.paceStep 200 ⟨200, 0⟩ false) ∧
    (FetchBlocksRpc.paceStep 200 ⟨200, 0⟩ false).current_delay < 200 := by
  constructor
  · exact .step _ _ .init
  · norm_num [FetchBlocksRpc.paceStep]

namespace FetchBlocksRpc

/-- A JSON-RPC request parameter: a `hex(bnum)` height or a boolean. -/
inductive JParam where
  | hexNum (n : ℕ)
  | bool (b : Bool)
deriving DecidableEq

/-- One request built by `fetch_and_write_batch` (lines 302-319): its
method, parameter list and caller-assigned correlation id. -/
structure RpcRequest where
  method : String
  params : List JParam
  id : ℕ
deriving DecidableEq

/-- The `for i, bnum in enumerate(block_nums)` request-building loop with
running index `i`: each height appends `eth_getBlockByNumber(hex(bnum),
True)` with id `i*2` and `eth_getBlockReceipts(hex(bnum))` with id
`i*2+1`. -/
def buildBatchFrom (i : ℕ) : List ℕ → List RpcRequest
  | [] => []
  | bnum :: rest =>
    ⟨"eth_getBlockByNumber", [.hexNum bnum, .bool true], i * 2⟩ ::
    ⟨"eth_getBlockReceipts", [.hexNum bnum], i * 2 + 1⟩ ::
    buildBatchFrom (i + 1) rest

/-- The full batch request list of `fetch_and_write_batch`. -/
def buildBatch (block_nums : List ℕ) : List RpcRequest :=
  buildBatchFrom 0 block_nums

/-- One response object: its correlation id and its `"result"` member
(`none` when the response is an error or has no result; the payload is a
JSON value modelled opaquely as a list). -/
structure RpcResponse where
  id : ℕ
  result : Option (List ℕ)
deriving DecidableEq

/-- `by_id = {r["id"]: r for r in results}` (line 324) followed by
`by_id.get(i)`: dict construction lets a later duplicate id win, hence the
reversed search. -/
def byId (results : List RpcResponse) (i : ℕ) : Option RpcResponse :=
  results.reverse.find? (fun r => r.id == i)

theorem buildBatchFrom_length (ns : List ℕ) :
    ∀ i, (buildBatchFrom i ns).length = 2 * ns.length := by
  induction ns with
  | nil => intro i; rfl
  | cons n rest ih =>
    intro i
    simp only [buildBatchFrom, List.length_cons, ih]
    omega

theorem buildBatchFrom_get (ns : List ℕ) :
    ∀ (i j : ℕ), j < ns.length →
      (buildBatchFrom i ns)[2 * j]? =
        some ⟨"eth_getBlockByNumber", [.hexNum (ns.getD j 0), .bool true],
          (i + j) * 2⟩ ∧
      (buildBatchFrom i ns)[2 * j + 1]? =
        some ⟨"eth_getBlockReceipts", [.hexNum (ns.getD j 0)],
          (i + j) * 2 + 1⟩ := by
  induction ns with
  | nil => intro i j hj; simp at hj
  | cons n rest ih =>
    intro i j hj
    cases j with
    | zero => simp [buildBatchFrom]
    | succ j =>
      have hrec := ih (i + 1) j (by simpa using Nat.lt_of_succ_lt_succ hj)
      have e1 : i + 1 + j = i + (j + 1) := by omega
      rw [e1] at hrec
      have e2 : 2 * (j + 1) = 2 * j + 1 + 1 := by omega
      simp only [buildBatchFrom, e2, List.getElem?_cons_succ, List.getD_cons_succ]
      exact hrec

theorem find_id_eq_some_iff (i : ℕ) :
    ∀ (l : List RpcResponse) (r : RpcResponse),
      (l.map RpcResponse.id).Nodup →
      (l.find? (fun x => x.id == i) = some r ↔ r ∈ l ∧ r.id = i) := by
  intro l
  induction l with
  | nil => intro r _; simp
  | cons a l ih =>
    intro r hnd
    simp only [List.map_cons, List.nodup_cons] at hnd
    by_cases ha : a.id = i
    · rw [List.find?_cons_of_pos _ (by simpa using ha)]
      constructor
      · intro h
        injection h with h
        subst h
        exact ⟨List.mem_cons_self a l, ha⟩
      · rintro ⟨hmem, hid⟩
        rcases List.mem_cons.mp hmem with rfl | hmem2
        · rfl
        · exact absurd (List.mem_map.mpr ⟨r, hmem2, by rw [hid, ha]⟩) hnd.1
    · rw [List.find?_cons_of_neg _ (by simpa using ha)]
      rw [ih r hnd.2]
      constructor
      · rintro ⟨hm, hid⟩
        exact ⟨List.mem_cons_of_mem _ hm, hid⟩
      · rintro ⟨hm, hid⟩
        rcases List.mem_cons.mp hm with rfl | hm2
        · exact absurd hid ha
        · exact ⟨hm2, hid⟩

theorem byId_iff (rs : List RpcResponse) (i : ℕ)
    (hnd : (rs.map RpcResponse.id).Nodup) (r : RpcResponse) :
    byId rs i = some r ↔ r ∈ rs ∧ r.id = i := by
  unfold byId
  rw [find_id_eq_some_iff i rs.reverse r (by
    rw [List.map_reverse]
    exact List.nodup_reverse.mpr hnd)]
  simp [List.mem_reverse]

theorem byId_perm (rs1 rs2 : List RpcResponse) (hperm : List.Perm rs1 rs2)
    (hnd : (rs1.map RpcResponse.id).Nodup) (i : ℕ) :
    byId rs1 i = byId rs2 i := by
  have hnd2 : (rs2.map RpcResponse.id).Nodup :=
    ((hperm.map RpcResponse.id).nodup_iff).mp hnd
  cases e1 : byId rs1 i with
  | none =>
    cases e2 : byId rs2 i with
    | none => rfl
    | some r =>
      have hm := (byId_iff rs2 i hnd2 r).mp e2
      have : byId rs1 i = some r :=
        (byId_iff rs1 i hnd r).mpr ⟨(hperm.mem_iff).mpr hm.1, hm.2⟩
      rw [e1] at this
      cases this
  | some r =>
    have hm := (byId_iff rs1 i hnd r).mp e1
    exact ((byId_iff rs2 i hnd2 r).mpr ⟨(hperm.mem_iff).mp hm.1, hm.2⟩).symm

end FetchBlocksRpc

/-- C8. For a batch of `N` heights `fetch_and_write_batch` issues exactly
`2N` requests, where the `j`-th height gets `eth_getBlockByNumber` with id
`2j` and `eth_getBlockReceipts` with id `2j+1`; responses are matched back
by correlation id, not position (the id lookup is invariant under any
permutation of the response array when ids are distinct); and a batch of 5
heights produces exactly 10 requests with ids 0-9. -/
theorem batch_ids_and_demux (block_nums : List ℕ) (j : ℕ)
    (hj : j < block_nums.length) :
    (FetchBlocksRpc.buildBatch block_nums).length = 2 * block_nums.length ∧
    (FetchBlocksRpc.buildBatch block_nums)[2 * j]? =
      some ⟨"eth_getBlockByNumber",
        [.hexNum (block_nums.getD j 0), .bool true], 2 * j⟩ ∧
    (FetchBlocksRpc.buildBatch block_nums)[2 * j + 1]? =
      some ⟨"eth_getBlockReceipts", [.hexNum (block_nums.getD j 0)],
        2 * j + 1⟩ ∧
    (∀ rs1 rs2 : List FetchBlocksRpc.RpcResponse, List.Perm rs1 rs2 →
      (rs1.map FetchBlocksRpc.RpcResponse.id).Nodup →
      ∀ i, FetchBlocksRpc.byId rs1 i = FetchBlocksRpc.byId rs2 i) ∧
    (FetchBlocksRpc.buildBatch [10, 11, 12, 13, 14]).map
      FetchBlocksRpc.RpcRequest.id = [0, 1, 2, 3, 4, 5, 6, 7, 8, 9] := by
  have hget := FetchBlocksRpc.buildBatchFrom_get block_nums 0 j hj
  have e1 : (0 + j) * 2 = 2 * j := by omega
  rw [e1] at hget
  exact ⟨FetchBlocksRpc.buildBatchFrom_length block_nums 0, hget.1, hget.2,
    FetchBlocksRpc.byId_perm, by decide⟩

/-- Witness for `batch_ids_and_demux`: the 5-height batch `[10..14]` has
10 requests, and height 0 of it gets ids 0 and 1. -/
theorem batch_ids_and_demux_witness :
    (FetchBlocksRpc.buildBatch [10, 11, 12, 13, 14]).length = 2 * 5 ∧
    (FetchBlocksRpc.buildBatch [10, 11, 12, 13, 14]).map
      FetchBlocksRpc.RpcRequest.id = [0, 1, 2, 3, 4, 5, 6, 7, 8, 9] := by
  have h := batch_ids_and_demux [10, 11, 12, 13, 14] 0 (by norm_num)
  exact ⟨h.1, h.2.2.2.2⟩

namespace FetchBlocksRpc

/-- Outcome of one height inside `fetch_and_write_batch` (lines 328-357):
skipped with an error because the block data was missing/empty/an error,
failed during convert-and-write with an error, or written. -/
inductive HeightOutcome where
  | skippedNoBlock
  | convertFailed
  | written (payload : ℕ)
deriving DecidableEq

/-- Per-height processing (lines 329-355), parametrized by the
convert-and-write step `convert` (`rpc_to_nanoreth` + msgpack + lz4 +
file write; `none` models a raised exception).  `block_data` is the
block response's `"result"` member, a JSON object modelled as a field
list (`some []` = empty dict, falsy like `None` under Python's
`if not block_data`); `receipts_data` is the receipts `"result"`, replaced
by `[]` when `None`. -/
def processHeight (convert : List ℕ → List ℕ → Option ℕ)
    (block_data : Option (List ℕ)) (receipts_data : Option (List ℕ)) :
    HeightOutcome :=
  match block_data with
  | none => .skippedNoBlock
  | some b =>
    if b.isEmpty then .skippedNoBlock
    else
      match convert b (receipts_data.getD []) with
      | none => .convertFailed
      | some p => .written p

/-- The `for i, bnum in enumerate(block_nums)` write loop (lines 326-357)
over per-height inputs `(bnum, block result, receipts result)`: returns
`(written, errors, writes)` where `writes` lists the `(height, payload)`
pairs actually written in order. -/
def writeLoop (convert : List ℕ → List ℕ → Option ℕ) :
    List (ℕ × Option (List ℕ) × Option (List ℕ)) → ℕ × ℕ × List (ℕ × ℕ)
  | [] => (0, 0, [])
  | (bnum, bd, rd) :: rest =>
    let t := writeLoop convert rest
    match processHeight convert bd rd with
    | .written p => (t.1 + 1, t.2.1, (bnum, p) :: t.2.2)
    | _ => (t.1, t.2.1 + 1, t.2.2)

/-- The per-height inputs of `fetch_and_write_batch`: for index `i`,
`by_id.get(i*2, {}).get("result")` and `by_id.get(i*2+1, {}).get("result")`
(lines 328-333). -/
def heightInputs (results : List RpcResponse) :
    ℕ → List ℕ → List (ℕ × Option (List ℕ) × Option (List ℕ))
  | _, [] => []
  | i, bnum :: rest =>
    (bnum, (byId results (i * 2)).bind RpcResponse.result,
      (byId results (i * 2 + 1)).bind RpcResponse.result) ::
      heightInputs results (i + 1) rest

/-- `fetch_and_write_batch` (lines 291-357) after the `rpc_call`: demux by
id, process each height and return the `(written, errors)` tallies plus
the writes performed. -/
def fetch_and_write_batch (convert : List ℕ → List ℕ → Option ℕ)
    (block_nums : List ℕ) (results : List RpcResponse) :
    ℕ × ℕ × List (ℕ × ℕ) :=
  writeLoop convert (heightInputs results 0 block_nums)

theorem writeLoop_append (convert : List ℕ → List ℕ → Option ℕ)
    (xs ys : List (ℕ × Option (List ℕ) × Option (List ℕ))) :
    writeLoop convert (xs ++ ys) =
      ((writeLoop convert xs).1 + (writeLoop convert ys).1,
       (writeLoop convert xs).2.1 + (writeLoop convert ys).2.1,
       (writeLoop convert xs).2.2 ++ (writeLoop convert ys).2.2) := by
  induction xs with
  | nil => simp [writeLoop]
  | cons x xs ih =>
    obtain ⟨bnum, bd, rd⟩ := x
    cases h : processHeight convert bd rd <;>
      simp [writeLoop, h, ih] <;> omega

end FetchBlocksRpc

/-- C9. Per-height failures are isolated inside a batch: splitting the
input list anywhere splits the tallies and writes additively, so one
height's outcome never affects its siblings; a height with missing
(`None`/error) or empty block data is one error and produces no write; a
height with `None` receipts is processed exactly as with an empty receipt
list, and is written (not an error) when conversion succeeds; and a height
whose convert-and-write step raises is exactly one error, the sibling
writes on both sides being preserved. -/
theorem batch_per_height_isolation
    (convert : List ℕ → List ℕ → Option ℕ)
    (bd rd : List ℕ) (hbd : bd ≠ []) :
    (∀ xs ys, FetchBlocksRpc.writeLoop convert (xs ++ ys) =
      ((FetchBlocksRpc.writeLoop convert xs).1 +
        (FetchBlocksRpc.writeLoop convert ys).1,
       (FetchBlocksRpc.writeLoop convert xs).2.1 +
        (FetchBlocksRpc.writeLoop convert ys).2.1,
       (FetchBlocksRpc.writeLoop convert xs).2.2 ++
        (FetchBlocksRpc.writeLoop convert ys).2.2)) ∧
    (∀ r, FetchBlocksRpc.processHeight convert none r =
      .skippedNoBlock) ∧
    (∀ r, FetchBlocksRpc.processHeight convert (some []) r =
      .skippedNoBlock) ∧
    (∀ bnum r, FetchBlocksRpc.writeLoop convert [(bnum, none, r)] =
      (0, 1, [])) ∧
    (FetchBlocksRpc.processHeight convert (some bd) none =
      FetchBlocksRpc.processHeight convert (some bd) (some [])) ∧
    (∀ p, convert bd [] = some p →
      FetchBlocksRpc.processHeight convert (some bd) none = .written p) ∧
    (convert bd rd = none → ∀ bnum xs ys,
      FetchBlocksRpc.writeLoop convert (xs ++ (bnum, some bd, some rd) :: ys) =
        ((FetchBlocksRpc.writeLoop convert xs).1 +
          (FetchBlocksRpc.writeLoop convert ys).1,
         (FetchBlocksRpc.writeLoop convert xs).2.1 + 1 +
          (FetchBlocksRpc.writeLoop convert ys).2.1,
         (FetchBlocksRpc.writeLoop convert xs).2.2 ++
          (FetchBlocksRpc.writeLoop convert ys).2.2)) := by
  have hemp : bd.isEmpty = false := by
    cases bd with
    | nil => exact absurd rfl hbd
    | cons a l => rfl
  refine ⟨FetchBlocksRpc.writeLoop_append convert, fun r => rfl, ?_, ?_, ?_, ?_, ?_⟩
  · intro r
    simp [FetchBlocksRpc.processHeight]
  · intro bnum r
    simp [FetchBlocksRpc.writeLoop, FetchBlocksRpc.processHeight]
  · rfl
  · intro p hp
    simp [FetchBlocksRpc.processHeight, hemp, hp]
  · intro hc bnum xs ys
    rw [FetchBlocksRpc.writeLoop_append convert xs ((bnum, some bd, some rd) :: ys)]
    have hone : FetchBlocksRpc.writeLoop convert ((bnum, some bd, some rd) :: ys) =
        ((FetchBlocksRpc.writeLoop convert ys).1,
         (FetchBlocksRpc.writeLoop convert ys).2.1 + 1,
         (FetchBlocksRpc.writeLoop convert ys).2.2) := by
      simp [FetchBlocksRpc.writeLoop, FetchBlocksRpc.processHeight, hemp, hc]
    rw [hone]
    simp only [Prod.ext_iff]
    refine ⟨trivial, ?_, trivial⟩
    omega

/-- Witness for `batch_per_height_isolation` with a concrete convert step:
a good height next to a no-block height yields one write and one error,
and a failing-convert height alone yields one error. -/
theorem batch_per_height_isolation_witness :
    FetchBlocksRpc.writeLoop
        (fun b r => if b = [1] then some r.length else none)
        ([(7, some [1], none)] ++ [(8, none, some [])]) = (1, 1, [(7, 0)]) ∧
    FetchBlocksRpc.writeLoop
        (fun b r => if b = [1] then some r.length else none)
        ([] ++ (9, some [2], some []) :: []) = (0, 1, []) := by
  have h := batch_per_height_isolation
    (fun b r => if b = [1] then some r.length else none) [2] []
    (by simp)
  constructor
  · rw [h.1 [(7, some [1], none)] [(8, none, some [])],
      h.2.2.2.1 8 (some [])]
    rfl
  · rw [h.2.2.2.2.2.2 rfl 9 [] []]
    rfl
